import Mathlib

/-!
Verification of the padington collaborative-editor server.

Rust strings are modelled as lists of characters, `HashMap`s as association
lists, bounded/oneshot queue sends as boolean outcomes supplied by an
environment record, and panics (`unwrap` on a missing entry or on a failed
broadcast send) as `Option.none` results.  External libraries (prosemirror
step application, serde serialization) are parameters of the embedding.
-/

namespace Padington

/-- Rust `String` / `&str`, modelled as a list of characters. -/
abbrev Str := List Char

/-- Rust `str::split(c)`: the list of chunks between occurrences of `c`.
Never returns the empty list; splitting the empty string gives `[[]]`. -/
def splitOnChar (c : Char) : List Char → List (List Char)
  | [] => [[]]
  | x :: xs =>
    if x = c then
      [] :: splitOnChar c xs
    else
      match splitOnChar c xs with
      | s :: ss => (x :: s) :: ss
      | [] => [[x]]

/-- `HashMap::get`: look a key up in an association list. -/
def mapFind {K V : Type} [DecidableEq K] (k : K) : List (K × V) → Option V
  | [] => none
  | (k1, v) :: rest => if k1 = k then some v else mapFind k rest

/-- `HashMap::insert`: replace the binding for `k` if present, else append. -/
def mapInsert {K V : Type} [DecidableEq K] (k : K) (v : V) :
    List (K × V) → List (K × V)
  | [] => [(k, v)]
  | (k1, v1) :: rest =>
    if k1 = k then (k, v) :: rest else (k1, v1) :: mapInsert k v rest

/-- `HashMap::remove`: drop the binding for `k`. -/
def mapRemove {K V : Type} [DecidableEq K] (k : K) :
    List (K × V) → List (K × V)
  | [] => []
  | (k1, v1) :: rest =>
    if k1 = k then rest else (k1, v1) :: mapRemove k rest

/-- `Vec::pop` combined with the remaining vector: split a list into its
leading elements and its last element. -/
def popLast {A : Type} : List A → Option (List A × A)
  | [] => none
  | [a] => some ([], a)
  | a :: b :: rest =>
    match popLast (b :: rest) with
    | some (front, last) => some (a :: front, last)
    | none => none

/-- One decimal digit of a character, when it is an ASCII digit. -/
def charDigit (c : Char) : Option Nat :=
  if c.isDigit then some (c.toNat - ('0').toNat) else none

/-- Accumulate decimal digits left to right; fails on a non-digit. -/
def parseNatCore : List Char → Nat → Option Nat
  | [], acc => some acc
  | c :: cs, acc =>
    match charDigit c with
    | some d => parseNatCore cs (acc * 10 + d)
    | none => none

/-- Rust `str::parse` for an unsigned integer type with maximum `max`:
an optional leading plus sign, then one or more decimal digits, rejecting
values above `max` (overflow). -/
def parseUnsigned (s : Str) (max : Nat) : Option Nat :=
  let digits := match s with
    | '+' :: rest => rest
    | other => other
  match digits with
  | [] => none
  | _ :: _ =>
    match parseNatCore digits 0 with
    | some n => if n ≤ max then some n else none
    | none => none

/-- Largest `u64` value; the server targets 64-bit platforms, so this is
also the largest `usize` value. -/
def u64Max : Nat := 2 ^ 64 - 1

/-! ## Command codec (src/command.rs) -/

/-- The kinds of incoming commands (`CommandKind`). -/
inductive CommandKind where
  | Init
  | Chat
  | Steps
  | Update
  | WebRTC
deriving DecidableEq

/-- Errors when parsing a command (`ParseCommandError`). -/
inductive ParseCommandError where
  | MissingArg (kind : CommandKind)
  | UnknownCommand (s : Str)
deriving DecidableEq

/-- An incoming command (`Command`). -/
inductive Command where
  | Chat (text : Str)
  | Steps (version : Nat) (steps : Str)
  | Update (payload : Str)
  | Init (name : Option Str)
  | Close
  | WebRTC (reciever : Nat) (payload : Str)
deriving DecidableEq

/-- `CommandKind::from_str`: the five accepted verbs. -/
def CommandKind.fromStr (s : Str) : Except ParseCommandError CommandKind :=
  if s = ("init").toList then .ok .Init
  else if s = ("chat").toList then .ok .Chat
  else if s = ("steps").toList then .ok .Steps
  else if s = ("update").toList then .ok .Update
  else if s = ("webrtc").toList then .ok .WebRTC
  else .error (.UnknownCommand s)

/-- `split_arg`: split a string once at its first pipe character; the second
component is `none` when there is no pipe. -/
def split_arg : Str → Str × Option Str
  | [] => ([], none)
  | c :: rest =>
    if c = '|' then
      ([], some rest)
    else
      match split_arg rest with
      | (h, t) => (c :: h, t)

/-- `Command::from_str`: split off the verb, then parse the verb-specific
arguments; `steps` and `webrtc` split their argument once more. -/
def Command.fromStr (input : Str) : Except ParseCommandError Command :=
  match split_arg input with
  | (cmd, arg) =>
    match CommandKind.fromStr cmd with
    | .error e => .error e
    | .ok .Init => .ok (.Init arg)
    | .ok .Chat =>
      match arg with
      | none => .error (.MissingArg .Chat)
      | some text => .ok (.Chat text)
    | .ok .Update =>
      match arg with
      | none => .error (.MissingArg .Update)
      | some text => .ok (.Update text)
    | .ok .WebRTC =>
      match arg with
      | none => .error (.MissingArg .WebRTC)
      | some text =>
        match split_arg text with
        | (reciever_str, opt_payload) =>
          match opt_payload with
          | none => .error (.MissingArg .WebRTC)
          | some payload =>
            match parseUnsigned reciever_str u64Max with
            | some reciever => .ok (.WebRTC reciever payload)
            | none => .error (.MissingArg .WebRTC)
    | .ok .Steps =>
      match arg with
      | none => .error (.MissingArg .Steps)
      | some text =>
        match split_arg text with
        | (version_str, opt_steps) =>
          match opt_steps with
          | none => .error (.MissingArg .Steps)
          | some steps =>
            match parseUnsigned version_str u64Max with
            | some version => .ok (.Steps version steps)
            | none => .error (.MissingArg .Steps)

example : Command.fromStr ("chat|hi|there").toList = .ok (.Chat ("hi|there").toList) := by rfl
example : Command.fromStr ("steps|4|[1,2]").toList = .ok (.Steps 4 ("[1,2]").toList) := by rfl
example : Command.fromStr ("close").toList = .error (.UnknownCommand ("close").toList) := by rfl
example : Command.fromStr ("init").toList = .ok (.Init none) := by rfl
example : Command.fromStr ("webrtc|7|x|y").toList = .ok (.WebRTC 7 ("x|y").toList) := by rfl

/-! ## Channel actor (src/channel/mod.rs, src/channel/doc.rs)

The document type and the step type come from the external prosemirror
library, so they are type parameters, together with `Step::apply` and the
serde serializers.  Queue and one-shot send outcomes are supplied by an
`Env` record; a Rust panic (a failed `unwrap`) is the result `none`. -/

/-- The state of the shared document (`DocState`): the document and the
current version number. -/
structure DocState (Doc : Type) where
  doc : Doc
  version : Nat
deriving DecidableEq

/-- Modelled from the spec: the `DocState::new` constructor used by the
channel task is not part of the sources under src (src/channel/doc.rs is an
older revision without it); per the spec, `version` is initialized to 0
when the document is loaded or created. -/
def DocState.new {Doc : Type} (doc : Doc) : DocState Doc :=
  { doc := doc, version := 0 }

/-- The data that represents a user (`UserData`); the `sig_tx` queue handle
is modelled through the environment and the effects record. -/
structure UserData where
  name : Str
  audio : Bool
deriving DecidableEq

/-- Data for a client that is public (`PublicMemberData`). -/
structure PublicMemberData where
  name : Str
  audio : Bool
deriving DecidableEq

/-- `UserData::public`. -/
def UserData.public (u : UserData) : PublicMemberData :=
  { name := u.name, audio := u.audio }

/-- Configuration update for a user (`UserConfig`). -/
structure UserConfig where
  name : Option Str
  audio : Option Bool
deriving DecidableEq

/-- A directed signal (`Signal`); the WebRTC JSON value is kept as the
opaque payload string it was parsed from. -/
structure Signal where
  sender : Nat
  reciever : Nat
  payload : Str
deriving DecidableEq

/-- The reply to an initialization message (`InitReply`). -/
structure InitReply where
  doc : Str
  j_peers : Str
deriving DecidableEq

/-- A message from the channel to all clients (`Broadcast`). -/
inductive Broadcast where
  | NewUser (remote_id : Nat) (data : Str)
  | UserLeft (id : Nat)
  | Update (id : Nat) (cfg : UserConfig)
  | Steps (text : Str)
  | ChatMessage (id : Nat) (text : Str)
deriving DecidableEq

/-- A kind of request from a client task to the channel (`RequestKind`);
the `Init` one-shot and signal handle are modelled via `Env`/`Effects`. -/
inductive RequestKind (Step : Type) where
  | Chat (text : Str)
  | Steps (version : Nat) (steps : List Step)
  | Init (name : Option Str)
  | Signal (sig : Signal)
  | Update (cfg : UserConfig)
  | Close
deriving DecidableEq

/-- A request from a client task to the channel task (`Request`). -/
structure Request (Step : Type) where
  source : Nat
  kind : RequestKind Step
deriving DecidableEq

/-- The state owned by the channel task (`ChannelState`): the member
roster and the document state. -/
structure ChannelState (Doc : Type) where
  member_data : List (Nat × UserData)
  doc_state : DocState Doc
deriving DecidableEq

/-- The external collaborators of `ChannelComms::handle_request`: the
channel id and the serde/prosemirror functions, which are out of scope and
therefore parameters. -/
structure ChannelCtx (Doc Step : Type) where
  id : Nat
  serializeDoc : DocState Doc → Str
  serializePub : PublicMemberData → Str
  serializePeers : List (Nat × PublicMemberData) → Str
  serializeBatch : Nat → List Step → Str
  applyStep : Step → Doc → Except Str Doc

/-- Outcomes of the queue/one-shot sends performed while handling one
request: whether the broadcast channel has a live subscriber (a tokio
broadcast send fails exactly when there is none), whether the `Init`
one-shot reply is received, whether the member's signal queue is still
open, and whether the lobby end queue is still open. -/
structure Env where
  hasSubscribers : Bool
  initReplyOk : Bool
  sigSendOk : Bool
  endSendOk : Bool
deriving DecidableEq

/-- The observable effects of handling one request: broadcasts delivered to
subscribers, signals delivered to a member's queue, the delivered `Init`
reply, and channel ids sent on the lobby end queue. -/
structure Effects where
  broadcasts : List Broadcast
  signals : List Signal
  initReply : Option InitReply
  ends : List Nat
deriving DecidableEq

/-- The empty effects record. -/
def Effects.none : Effects :=
  { broadcasts := [], signals := [], initReply := Option.none, ends := [] }

/-- The inner loop of the `apply_steps` helper: fold the remaining steps
left to right, each consuming the document produced by the previous. -/
def apply_steps_rest {Doc Step : Type} (applyStep : Step → Doc → Except Str Doc) :
    Doc → List Step → Except Str Doc
  | doc, [] => .ok doc
  | doc, step :: rest =>
    match applyStep step doc with
    | .ok new_doc => apply_steps_rest applyStep new_doc rest
    | .error e => .error e

/-- The `apply_steps` helper of the `Steps` branch: apply the first step,
then fold the rest over the result. -/
def apply_steps {Doc Step : Type} (applyStep : Step → Doc → Except Str Doc)
    (doc : Doc) (first : Step) (rest : List Step) : Except Str Doc :=
  match applyStep first doc with
  | .ok new_doc => apply_steps_rest applyStep new_doc rest
  | .error e => .error e

/-- `ChannelComms::handle_request`: handle one request from a client,
returning the new channel state and the effects, or `none` when the code
panics (an `unwrap` of a missing roster entry, or an `unwrap` of a failed
broadcast send). -/
def handle_request {Doc Step : Type} (ctx : ChannelCtx Doc Step) (env : Env)
    (c_state : ChannelState Doc) (request : Request Step) :
    Option (ChannelState Doc × Effects) :=
  match request.kind with
  | .Init name =>
    let id := request.source
    let doc := ctx.serializeDoc c_state.doc_state
    let new_name := match name with
      | some n => n
      | none => ("Bear #").toList ++ Nat.toDigits 10 id
    let new_data : UserData := { name := new_name, audio := false }
    let j_data := ctx.serializePub new_data.public
    let member_data := mapInsert id new_data c_state.member_data
    let peers := member_data.map (fun p => (p.1, p.2.public))
    let j_peers := ctx.serializePeers peers
    let reply : InitReply := { doc := doc, j_peers := j_peers }
    let s1 : ChannelState Doc := { c_state with member_data := member_data }
    if env.initReplyOk then
      if env.hasSubscribers then
        some (s1, { Effects.none with
                    broadcasts := [.NewUser id j_data],
                    initReply := some reply })
      else
        none
    else
      some (s1, Effects.none)
  | .Chat text =>
    if env.hasSubscribers then
      some (c_state,
            { Effects.none with broadcasts := [.ChatMessage request.source text] })
    else
      none
  | .Update cfg =>
    match mapFind request.source c_state.member_data with
    | Option.none => none
    | some member =>
      let member1 := match cfg.name with
        | some new_name => { member with name := new_name }
        | Option.none => member
      let member2 := match cfg.audio with
        | some audio => { member1 with audio := audio }
        | Option.none => member1
      let s1 : ChannelState Doc :=
        { c_state with member_data := mapInsert request.source member2 c_state.member_data }
      let bcasts := if env.hasSubscribers then [Broadcast.Update request.source cfg] else []
      some (s1, { Effects.none with broadcasts := bcasts })
  | .Signal signal =>
    match mapFind signal.reciever c_state.member_data with
    | Option.none => none
    | some _member =>
      let sigs := if env.sigSendOk then [signal] else []
      some (c_state, { Effects.none with signals := sigs })
  | .Steps version steps =>
    if version = c_state.doc_state.version then
      match steps with
      | [] => some (c_state, Effects.none)
      | first :: rest =>
        match apply_steps ctx.applyStep c_state.doc_state.doc first rest with
        | .ok new_doc =>
          let s1 : ChannelState Doc :=
            { c_state with
              doc_state := { doc := new_doc,
                             version := c_state.doc_state.version + steps.length } }
          let text := ctx.serializeBatch request.source steps
          if env.hasSubscribers then
            some (s1, { Effects.none with broadcasts := [.Steps text] })
          else
            none
        | .error _ => some (c_state, Effects.none)
    else
      some (c_state, Effects.none)
  | .Close =>
    let s1 : ChannelState Doc :=
      { c_state with member_data := mapRemove request.source c_state.member_data }
    let bcasts := if env.hasSubscribers then [Broadcast.UserLeft request.source] else []
    let ends := if env.endSendOk then [ctx.id] else []
    some (s1, { Effects.none with broadcasts := bcasts, ends := ends })

/-- Run the channel actor main loop over a list of requests, each with the
send outcomes of its environment; `none` when some request panics. -/
def runRequests {Doc Step : Type} (ctx : ChannelCtx Doc Step) :
    ChannelState Doc → List (Env × Request Step) → Option (ChannelState Doc)
  | s, [] => some s
  | s, (env, r) :: rs =>
    match handle_request ctx env s r with
    | some (s1, _) => runRequests ctx s1 rs
    | none => none

/-- The number of individual steps a request contributes when it is
accepted: the batch length when it is a `Steps` request whose declared
version matches, whose batch is non-empty, and whose application succeeds;
otherwise 0. -/
def stepsAccepted {Doc Step : Type} (ctx : ChannelCtx Doc Step)
    (s : ChannelState Doc) (r : Request Step) : Nat :=
  match r.kind with
  | .Steps version steps =>
    if version = s.doc_state.version then
      match steps with
      | [] => 0
      | first :: rest =>
        match apply_steps ctx.applyStep s.doc_state.doc first rest with
        | .ok _ => steps.length
        | .error _ => 0
    else 0
  | _ => 0

/-- The lengths of the accepted step batches along a run of the channel
actor, in order. -/
def acceptedLens {Doc Step : Type} (ctx : ChannelCtx Doc Step) :
    ChannelState Doc → List (Env × Request Step) → List Nat
  | _, [] => []
  | s, (env, r) :: rs =>
    match handle_request ctx env s r with
    | some (s1, _) => stepsAccepted ctx s r :: acceptedLens ctx s1 rs
    | none => []

/-! ## Lobby (src/lobby/server.rs, src/lobby/mod.rs, src/util.rs) -/

/-- A per-channel entry of the lobby (`LobbyChannel`): the user-id counter,
the reference count, and the path key; the queue handles are modelled via
effects. -/
structure LobbyChannel where
  next_id : Nat
  count : Nat
  path : Str
deriving DecidableEq

/-- The state of the lobby (`LobbyState`): the channel-id counter and the
two registry maps. -/
structure LobbyState where
  next_id : Nat
  channels : List (Nat × LobbyChannel)
  channel_names : List (Str × Nat)
deriving DecidableEq

/-- `LobbyState::default()`: empty lobby, counters at zero. -/
def LobbyState.default : LobbyState :=
  { next_id := 0, channels := [], channel_names := [] }

/-- `LoopState`: whether the lobby main loop continues or breaks. -/
inductive LoopState (T : Type) where
  | Break (t : T)
  | Continue
deriving DecidableEq

/-- The path validity type of the inline `check_name` of
`LobbyState::handle_join_request` (the revision under src). -/
inductive LobbyPathValidity where
  | Invalid
  | File (components : List Str) (file : Str)
  | FolderV (components : List Str)
deriving DecidableEq

/-- A valid path component for the lobby's inline `check_name`: non-empty
and only ASCII alphanumeric characters or hyphens. -/
def validComponent (c : Str) : Bool :=
  decide (0 < c.length) && c.all (fun ch => ch.isAlphanum || ch = '-')

/-- The inline `check_name` of `LobbyState::handle_join_request`: split on
slashes, require a leading slash, pop the final segment, require every
other component to be a valid name, and classify by whether the final
segment is empty. -/
def lobbyCheckName (path : Str) : LobbyPathValidity :=
  match splitOnChar '/' path with
  | [] => .Invalid
  | first :: rest =>
    if first = [] then
      match popLast rest with
      | some (components, file) =>
        if components.all validComponent then
          if file = [] then .FolderV components else .File components file
        else .Invalid
      | none => .Invalid
    else .Invalid

/-- The reply sent on the join one-shot, reduced to its observable kind. -/
inductive JoinReplyKind where
  | okId (id : Nat)
  | errInvalidPath
  | errIsFolder
deriving DecidableEq

/-- `LobbyState::handle_end`: process an end notification carrying a
channel id; returns the new state, whether the lobby loop breaks, and the
list of channels whose termination one-shot was fired. -/
def LobbyState.handle_end (st : LobbyState) (sig : Nat) :
    LobbyState × LoopState Unit × List Nat :=
  match mapFind sig st.channels with
  | none => (st, .Break (), [])
  | some channel =>
    if channel.count < 1 then
      (st, .Break (), [])
    else if channel.count = 1 then
      ({ st with channels := mapRemove sig st.channels,
                 channel_names := mapRemove channel.path st.channel_names },
       .Continue, [sig])
    else
      ({ st with channels :=
           mapInsert sig { channel with count := channel.count - 1 } st.channels },
       .Continue, [])

/-- `LobbyState::handle_join_request`: either attach to the live channel of
the path (increment its count, allocate a user id), or resolve the path and
on success create a fresh channel entry with count 1 and user id 0.
Returns the new state, the reply kind, and the ids of spawned channel
tasks; `none` models the `unwrap` panic when the registry maps are
inconsistent. -/
def LobbyState.handle_join_request (st : LobbyState) (path : Str) :
    Option (LobbyState × JoinReplyKind × List Nat) :=
  match mapFind path st.channel_names with
  | some channel_id =>
    match mapFind channel_id st.channels with
    | none => none
    | some channel =>
      let channel1 := { channel with count := channel.count + 1 }
      let id := channel1.next_id
      let channel2 := { channel1 with next_id := channel1.next_id + 1 }
      some ({ st with channels := mapInsert channel_id channel2 st.channels },
            .okId id, [])
  | none =>
    match lobbyCheckName path with
    | .Invalid => some (st, .errInvalidPath, [])
    | .FolderV _ => some (st, .errIsFolder, [])
    | .File _ _ =>
      let channel_id := st.next_id
      let entry : LobbyChannel := { next_id := 1, count := 1, path := path }
      some ({ next_id := st.next_id + 1,
              channels := mapInsert channel_id entry st.channels,
              channel_names := mapInsert path channel_id st.channel_names },
            .okId 0, [channel_id])

/-- An event processed by the lobby concerning one fixed path: a join
request for the path, or the end notification sent by the channel
currently registered for the path. -/
inductive LobbyEvt where
  | join
  | endEvt
deriving DecidableEq

/-- One lobby step for a fixed path: joins go through
`handle_join_request`; an end notification carries the id of the live
channel of the path (`none` when there is none, which cannot arise from a
well-formed interleaving, or when the lobby loop breaks). -/
def lobbyStep (p : Str) (st : LobbyState) :
    LobbyEvt → Option (LobbyState × List Nat)
  | .join =>
    match st.handle_join_request p with
    | some (st1, _, _) => some (st1, [])
    | none => none
  | .endEvt =>
    match mapFind p st.channel_names with
    | some cid =>
      match st.handle_end cid with
      | (st1, .Continue, fired) => some (st1, fired)
      | (_, .Break _, _) => none
    | none => none

/-- Run the lobby over a sequence of events for one path, collecting the
channels whose termination was fired. -/
def lobbyRun (p : Str) : LobbyState → List LobbyEvt → Option (LobbyState × List Nat)
  | st, [] => some (st, [])
  | st, e :: es =>
    (lobbyStep p st e).bind
      (fun x => (lobbyRun p x.1 es).map (fun y => (y.1, x.2 ++ y.2)))

/-- The reference count the lobby holds for a path (0 when the path has no
live channel entry). -/
def refcountOf (st : LobbyState) (p : Str) : Nat :=
  match mapFind p st.channel_names with
  | some cid =>
    match mapFind cid st.channels with
    | some ch => ch.count
    | none => 0
  | none => 0

/-- The number of join events in a lobby event sequence. -/
def joinCount (es : List LobbyEvt) : Nat :=
  (es.filter (fun e => e = .join)).length

/-- The number of end events in a lobby event sequence. -/
def endCount (es : List LobbyEvt) : Nat :=
  (es.filter (fun e => e = .endEvt)).length

/-! ## Folder resolver (src/config/folder.rs) -/

/-- A filesystem path (`PathBuf`), as a list of components. -/
abbrev FsPath := List Str

/-- A folder of the configured directory tree (`Folder`): an optional
`save_dir` override, the live channels keyed by file name, and the named
subfolders. -/
inductive Folder where
  | node (save_dir : Option FsPath) (channels : List (Str × Nat))
      (sub : List (Str × Folder))

/-- The `save_dir` field of a folder. -/
def Folder.save_dir : Folder → Option FsPath
  | .node s _ _ => s

/-- The `sub` field of a folder. -/
def Folder.sub : Folder → List (Str × Folder)
  | .node _ _ s => s

/-- The result of resolving a path against the folder tree
(`PathValidity`); `FolderV` is the source's `Folder` variant. -/
inductive PathValidity where
  | Invalid
  | File (folder : Folder) (dir : FsPath) (name : Str)
  | FolderV (folder : Folder) (dir : FsPath)

/-- `Folder::check_name_iter`: apply the folder's `save_dir` override, then
either descend into the subfolder named by the current segment (pushing the
raw segment onto the directory) or classify the final segment. -/
def Folder.check_name_iter (f : Folder) (iter : List Str) (curr : Str)
    (base_dir : FsPath) : PathValidity :=
  let base_dir1 := match f.save_dir with
    | some base => base
    | none => base_dir
  match iter with
  | next :: rest =>
    match mapFind curr f.sub with
    | some sub => Folder.check_name_iter sub rest next (base_dir1 ++ [curr])
    | none => .Invalid
  | [] =>
    if curr = [] then .FolderV f base_dir1 else .File f base_dir1 curr

/-- `Folder::check_name`: split the path on slashes, require a leading
slash and at least one further segment, then walk the folder tree. -/
def Folder.check_name (f : Folder) (path : Str) (base_dir : FsPath) :
    PathValidity :=
  match splitOnChar '/' path with
  | [] => .Invalid
  | first :: rest =>
    if first = [] then
      match rest with
      | curr :: iter => f.check_name_iter iter curr base_dir
      | [] => .Invalid
    else .Invalid

/-- The observable classification of a resolution result, forgetting the
resolved folder and directory. -/
inductive PathKind where
  | invalid
  | folderKind
  | fileKind (name : Str)
deriving DecidableEq

/-- Forget the folder and directory of a `PathValidity`. -/
def PathValidity.kind : PathValidity → PathKind
  | .Invalid => .invalid
  | .File _ _ name => .fileKind name
  | .FolderV _ _ => .folderKind

/-- Whether a string begins with a slash. -/
def startsWithSlash : Str → Bool
  | '/' :: _ => true
  | _ => false

/-- The walk of the spec, C7 clause 2: thread the non-final segments
through the subfolder maps; `none` as soon as a segment is unknown. -/
def walkSpec : Folder → List Str → Option Folder
  | f, [] => some f
  | f, s :: rest =>
    match mapFind s f.sub with
    | some sub => walkSpec sub rest
    | none => none

/-- The folder resolver as the spec's words state it: Invalid unless the
path starts with a slash; split on slashes; walk the non-final segments
through the subfolder maps, Invalid on an unknown segment; Folder when the
final segment is empty; otherwise File with the final segment. -/
def check_name_spec (f : Folder) (path : Str) : PathKind :=
  if startsWithSlash path then
    match splitOnChar '/' path with
    | [] => .invalid
    | _ :: rest =>
      match popLast rest with
      | some (components, final) =>
        match walkSpec f components with
        | some _ => if final = [] then .folderKind else .fileKind final
        | none => .invalid
      | none => .invalid
  else .invalid

/-- Modelled from the spec: the slug transform is not part of the sources
under src (the lobby revision under src keys channels by the raw path and
never slugifies); per the spec glossary a slug is lowercase ASCII,
hyphen-separated: alphanumeric characters are lowercased and every other
character becomes a hyphen, with hyphen runs collapsed and trimmed. -/
def slugify (s : Str) : Str :=
  let mapped := s.map (fun ch => if ch.isAlphanum then ch.toLower else '-')
  let collapsed := mapped.foldr
    (fun ch acc =>
      match acc with
      | '-' :: _ => if ch = '-' then acc else ch :: acc
      | _ => ch :: acc)
    []
  let noLead := match collapsed with
    | '-' :: rest => rest
    | other => other
  match popLast noLead with
  | some (front, '-') => front
  | _ => noLead

/-- Modelled from the spec: the channel key of a client path — missing from
the sources under src together with the lobby revision that computes it —
is the effective save_dir accumulated during the folder walk joined with
the slugified final segment plus the `.md` extension. -/
def channelKey (f : Folder) (path : Str) (base_dir : FsPath) : Option FsPath :=
  match f.check_name path base_dir with
  | .File _ dir name => some (dir ++ [slugify name ++ (".md").toList])
  | _ => none

example : slugify ("My Pad").toList = ("my-pad").toList := by rfl
example : slugify ("my-pad").toList = ("my-pad").toList := by rfl
example : slugify ("  Hello,  World! ").toList = ("hello-world").toList := by rfl

/-! ## Client session (src/client/mod.rs) -/

/-- The `displaydoc` rendering of a command kind. -/
def CommandKind.display : CommandKind → Str
  | .Init => ("init").toList
  | .Chat => ("chat").toList
  | .Steps => ("steps").toList
  | .Update => ("update").toList
  | .WebRTC => ("webrtc").toList

/-- The `displaydoc` rendering of a parse error, as interpolated into the
`error|` frame. -/
def ParseCommandError.display : ParseCommandError → Str
  | .MissingArg kind =>
    ("The command expected an argument (e.g. `").toList ++ kind.display
      ++ ("|foo`)").toList
  | .UnknownCommand s =>
    ("The command `").toList ++ s ++ ("` is not known").toList

/-- Whether the session loop continues or breaks (`CommandRes`). -/
inductive CommandRes where
  | Break
  | Continue
deriving DecidableEq

/-- The external collaborators of the client session handlers: the serde
parsers for the JSON payloads of `update`, `webrtc` and `steps`. -/
structure ClientCtx (Step : Type) where
  parseUserConfig : Str → Except Str UserConfig
  parseJson : Str → Except Str Str
  parseSteps : Str → Except Str (List Step)

/-- Outcomes of the sends performed by the client session handlers:
whether a send on the WebSocket sink succeeds, whether a send on the
channel request queue succeeds, and the outcome of awaiting the `Init`
one-shot reply. -/
structure ClientEnv where
  wsSendOk : Bool
  msgSendOk : Bool
  initReplyRecv : Option InitReply
deriving DecidableEq

/-- What a client session handler produced: whether the loop continues,
the text frames delivered to the WebSocket, and the requests delivered to
the channel queue.  The error result models the `?` propagation of a
WebSocket send failure. -/
def ClientOut (Step : Type) := CommandRes × List Str × List (RequestKind Step)

/-- `handle_command`: dispatch one parse result; a parse error is answered
with an `error|` frame and the loop continues. -/
def handle_command {Step : Type} (ctx : ClientCtx Step) (env : ClientEnv)
    (id : Nat) (cmd_res : Except ParseCommandError Command) :
    Except Unit (ClientOut Step) :=
  match cmd_res with
  | .ok (.Init name) =>
    if env.msgSendOk then
      match env.initReplyRecv with
      | some state =>
        if env.wsSendOk then
          .ok (.Continue,
               [("init|").toList ++ Nat.toDigits 10 id ++ ('|' :: state.doc),
                ("peers|").toList ++ state.j_peers],
               [.Init name])
        else .error ()
      | none => .ok (.Continue, [], [.Init name])
    else .ok (.Break, [], [])
  | .ok (.Chat msg) =>
    if env.msgSendOk then .ok (.Continue, [], [.Chat msg])
    else .ok (.Break, [], [])
  | .ok (.Update payload) =>
    match ctx.parseUserConfig payload with
    | .ok cfg =>
      if env.msgSendOk then .ok (.Continue, [], [.Update cfg])
      else .ok (.Break, [], [])
    | .error _ => .ok (.Break, [], [])
  | .ok (.WebRTC reciever payload) =>
    match ctx.parseJson payload with
    | .ok value =>
      if env.msgSendOk then
        .ok (.Continue, [],
             [.Signal { sender := id, reciever := reciever, payload := value }])
      else .ok (.Break, [], [])
    | .error _ => .ok (.Break, [], [])
  | .ok (.Steps version string) =>
    match ctx.parseSteps string with
    | .ok steps =>
      if env.msgSendOk then .ok (.Continue, [], [.Steps version steps])
      else .ok (.Break, [], [])
    | .error _ => .ok (.Break, [], [])
  | .ok .Close =>
    .ok (.Break, [], if env.msgSendOk then [.Close] else [])
  | .error err =>
    if env.wsSendOk then
      .ok (.Continue, [("error|").toList ++ err.display], [])
    else .error ()

/-- An inbound WebSocket message (`tungstenite::Message`), payloads of the
non-text variants kept abstract as byte lists. -/
inductive WsMessage where
  | text (t : Str)
  | binary (b : List Nat)
  | close
  | ping (p : List Nat)
  | pong (p : List Nat)
deriving DecidableEq

/-- `handle_message`: text frames are parsed and dispatched through
`handle_command`; binary frames are echoed; a close frame submits `Close`
and breaks; a ping is answered with a pong, whose send failure submits
`Close` and breaks; a pong is ignored. -/
def handle_message {Step : Type} (ctx : ClientCtx Step) (env : ClientEnv)
    (id : Nat) (msg : WsMessage) : Except Unit (ClientOut Step) :=
  match msg with
  | .text t => handle_command ctx env id (Command.fromStr t)
  | .binary _ =>
    if env.wsSendOk then .ok (.Continue, [], []) else .error ()
  | .close =>
    .ok (.Break, [], if env.msgSendOk then [.Close] else [])
  | .ping _ =>
    if env.wsSendOk then .ok (.Continue, [], [])
    else .ok (.Break, [], if env.msgSendOk then [.Close] else [])
  | .pong _ => .ok (.Continue, [], [])

/-! ## Concrete instantiation used by witnesses

Documents are numbers, steps are numbers, applying step `n` adds `n` to the
document and fails when `n = 0`; serializers return the empty string. -/

/-- A concrete channel context for evaluating the embedding. -/
def natCtx : ChannelCtx Nat Nat :=
  { id := 7
    serializeDoc := fun _ => []
    serializePub := fun _ => []
    serializePeers := fun _ => []
    serializeBatch := fun _ _ => []
    applyStep := fun s d => if s = 0 then .error [] else .ok (d + s) }

/-- An environment in which every send succeeds. -/
def envAll : Env :=
  { hasSubscribers := true, initReplyOk := true, sigSendOk := true, endSendOk := true }

/-- A concrete channel state with an empty roster and a fresh document. -/
def chanS0 : ChannelState Nat :=
  { member_data := [], doc_state := { doc := 0, version := 0 } }

/-- A concrete channel state whose roster contains user 1. -/
def chanS1 : ChannelState Nat :=
  { member_data := [(1, { name := ("a").toList, audio := false })],
    doc_state := { doc := 0, version := 0 } }

/-! ## C1 — rejected step batches leave the state unchanged -/

/-- C1: for every `Steps(declared_version, batch)` request, if the declared
version differs from the current version, or the batch is empty, or
applying the batch fails, then the channel state (document, version and
roster) is unchanged and no broadcast, signal, reply or end notification is
produced. -/
theorem c1_steps_rejection {Doc Step : Type} (ctx : ChannelCtx Doc Step)
    (env : Env) (s : ChannelState Doc) (src version : Nat) (steps : List Step)
    (h : version ≠ s.doc_state.version ∨ steps = [] ∨
      ∃ first rest e, steps = first :: rest ∧
        apply_steps ctx.applyStep s.doc_state.doc first rest = .error e) :
    handle_request ctx env s ⟨src, .Steps version steps⟩ = some (s, Effects.none) := by
  rcases h with h | h | ⟨first, rest, e, rfl, herr⟩
  · simp [handle_request, h]
  · subst h
    by_cases hv : version = s.doc_state.version <;> simp [handle_request, hv]
  · by_cases hv : version = s.doc_state.version <;> simp [handle_request, hv, herr]

/-- Witness for C1: a batch with a stale declared version is dropped with
no effect at a concrete state. -/
theorem c1_witness :
    (3 ≠ chanS0.doc_state.version) ∧
    handle_request natCtx envAll chanS0 ⟨0, .Steps 3 [1]⟩ = some (chanS0, Effects.none) :=
  ⟨by decide, c1_steps_rejection natCtx envAll chanS0 0 3 [1] (Or.inl (by decide))⟩

/-! ## C2 — the version counts the accepted steps -/

/-- Handling one request advances the version by exactly the number of
steps the request got accepted with (0 for everything but an accepted
batch). -/
theorem handle_request_version {Doc Step : Type} (ctx : ChannelCtx Doc Step)
    (env : Env) (s : ChannelState Doc) (r : Request Step)
    (s1 : ChannelState Doc) (eff : Effects)
    (h : handle_request ctx env s r = some (s1, eff)) :
    s1.doc_state.version = s.doc_state.version + stepsAccepted ctx s r := by
  obtain ⟨src, kind⟩ := r
  cases kind with
  | Init name =>
    by_cases hr : env.initReplyOk <;> by_cases hb : env.hasSubscribers <;>
      simp [handle_request, hr, hb] at h <;>
      obtain ⟨h1, -⟩ := h <;> subst h1 <;> simp [stepsAccepted]
  | Chat text =>
    by_cases hb : env.hasSubscribers <;> simp [handle_request, hb] at h
    obtain ⟨h1, -⟩ := h
    subst h1
    simp [stepsAccepted]
  | Update cfg =>
    cases hm : mapFind src s.member_data with
    | none => simp [handle_request, hm] at h
    | some member =>
      simp [handle_request, hm] at h
      obtain ⟨h1, -⟩ := h
      subst h1
      simp [stepsAccepted]
  | Signal sig =>
    cases hm : mapFind sig.reciever s.member_data with
    | none => simp [handle_request, hm] at h
    | some member =>
      simp [handle_request, hm] at h
      obtain ⟨h1, -⟩ := h
      subst h1
      simp [stepsAccepted]
  | Close =>
    simp [handle_request] at h
    obtain ⟨h1, -⟩ := h
    subst h1
    simp [stepsAccepted]
  | Steps version steps =>
    by_cases hv : version = s.doc_state.version
    · cases steps with
      | nil =>
        simp [handle_request, hv] at h
        obtain ⟨h1, -⟩ := h
        subst h1
        simp [stepsAccepted, hv]
      | cons first rest =>
        cases happ : apply_steps ctx.applyStep s.doc_state.doc first rest with
        | ok new_doc =>
          by_cases hb : env.hasSubscribers
          · simp [handle_request, hv, happ, hb] at h
            obtain ⟨h1, -⟩ := h
            subst h1
            simp [stepsAccepted, hv, happ]
          · simp [handle_request, hv, happ, hb] at h
        | error e =>
          simp [handle_request, hv, happ] at h
          obtain ⟨h1, -⟩ := h
          subst h1
          simp [stepsAccepted, hv, happ]
    · simp [handle_request, hv] at h
      obtain ⟨h1, -⟩ := h
      subst h1
      simp [stepsAccepted, hv]

/-- Over any run of the channel actor, the final version is the initial
version plus the sum of the accepted batch lengths. -/
theorem runRequests_version {Doc Step : Type} (ctx : ChannelCtx Doc Step) :
    ∀ (rs : List (Env × Request Step)) (s s1 : ChannelState Doc),
      runRequests ctx s rs = some s1 →
      s1.doc_state.version = s.doc_state.version + (acceptedLens ctx s rs).sum := by
  intro rs
  induction rs with
  | nil =>
    intro s s1 h
    simp [runRequests] at h
    subst h
    simp [acceptedLens]
  | cons hd tl ih =>
    intro s s1 h
    obtain ⟨env, r⟩ := hd
    cases hh : handle_request ctx env s r with
    | none => simp [runRequests, hh] at h
    | some pair =>
      obtain ⟨s2, eff⟩ := pair
      simp [runRequests, hh] at h
      have h2 := ih s2 s1 h
      have h1 := handle_request_version ctx env s r s2 eff hh
      simp [acceptedLens, hh]
      omega

/-- C2: the version of a freshly loaded or created document starts at 0;
each request accepted with `k` steps advances the version by exactly `k`
(and every request leaves it non-decreasing); hence after any sequence of
requests the version equals the sum of the lengths of the accepted
batches. -/
theorem c2_version_sum {Doc Step : Type} (ctx : ChannelCtx Doc Step) (d : Doc)
    (rs : List (Env × Request Step)) (s1 : ChannelState Doc)
    (h : runRequests ctx { member_data := [], doc_state := DocState.new d } rs = some s1) :
    (DocState.new d).version = 0
    ∧ s1.doc_state.version =
        (acceptedLens ctx { member_data := [], doc_state := DocState.new d } rs).sum
    ∧ ∀ (env : Env) (s s2 : ChannelState Doc) (r : Request Step) (eff : Effects),
        handle_request ctx env s r = some (s2, eff) →
        s2.doc_state.version = s.doc_state.version + stepsAccepted ctx s r
        ∧ s.doc_state.version ≤ s2.doc_state.version := by
  refine ⟨rfl, ?_, ?_⟩
  · have := runRequests_version ctx rs _ s1 h
    simpa [DocState.new] using this
  · intro env s s2 r eff hh
    have h1 := handle_request_version ctx env s r s2 eff hh
    exact ⟨h1, by omega⟩

/-- Witness for C2: a concrete run with one accepted batch of length 2,
one stale batch and one failing batch ends at version 2. -/
theorem c2_witness :
    runRequests natCtx { member_data := [], doc_state := DocState.new 0 }
        [(envAll, ⟨0, .Steps 0 [1, 2]⟩), (envAll, ⟨0, .Steps 0 [5]⟩),
         (envAll, ⟨0, .Steps 2 [0]⟩)] = some
      { member_data := [], doc_state := { doc := 3, version := 2 } }
    ∧ ({ member_data := [], doc_state := { doc := 3, version := 2 } } :
        ChannelState Nat).doc_state.version =
      (acceptedLens natCtx { member_data := [], doc_state := DocState.new 0 }
        [(envAll, ⟨0, .Steps 0 [1, 2]⟩), (envAll, ⟨0, .Steps 0 [5]⟩),
         (envAll, ⟨0, .Steps 2 [0]⟩)]).sum :=
  ⟨by decide,
   (c2_version_sum natCtx 0
      [(envAll, ⟨0, .Steps 0 [1, 2]⟩), (envAll, ⟨0, .Steps 0 [5]⟩),
       (envAll, ⟨0, .Steps 2 [0]⟩)]
      { member_data := [], doc_state := { doc := 3, version := 2 } }
      (by decide)).2.1⟩

/-! ## C4 — Signal/Update with an unknown member -/

/-- Counterexample to C4: at a concrete state whose roster does not contain
user 5, a `Signal` addressed to user 5 makes the channel actor panic (the
`unwrap` of the missing roster entry, modelled as `none`) instead of
dropping the operation and continuing. -/
theorem c4_counterexample :
    mapFind 5 chanS0.member_data = Option.none
    ∧ handle_request natCtx envAll chanS0 ⟨0, .Signal ⟨0, 5, []⟩⟩ = Option.none := by
  exact ⟨rfl, rfl⟩

/-- C4 (amended): a `Signal` whose receiver is not in the roster, and an
`Update` whose source is not in the roster, make the channel actor panic
(the handler unwraps the missing entry); when the receiver is present the
signal send is awaited and its failure (receiver handle closed) only drops
the signal, leaving the state unchanged. -/
theorem c4_amended {Doc Step : Type} (ctx : ChannelCtx Doc Step) (env : Env)
    (s : ChannelState Doc) (src : Nat) (sig : Signal) (cfg : UserConfig) :
    (mapFind sig.reciever s.member_data = Option.none →
      handle_request ctx env s ⟨src, .Signal sig⟩ = Option.none)
    ∧ (mapFind src s.member_data = Option.none →
      handle_request ctx env s (⟨src, .Update cfg⟩ : Request Step) = Option.none)
    ∧ (∀ member, mapFind sig.reciever s.member_data = some member →
      handle_request ctx env s ⟨src, .Signal sig⟩ =
        some (s, { Effects.none with signals := if env.sigSendOk then [sig] else [] })) := by
  refine ⟨fun hm => ?_, fun hm => ?_, fun member hm => ?_⟩
  · simp [handle_request, hm]
  · simp [handle_request, hm]
  · simp [handle_request, hm]

/-- Witness for the amended C4 at concrete inputs: both panic cases and
one successful delivery. -/
theorem c4_witness :
    handle_request natCtx envAll chanS0 ⟨0, .Signal ⟨0, 5, []⟩⟩ = Option.none
    ∧ handle_request natCtx envAll chanS0 ⟨3, .Update ⟨Option.none, Option.none⟩⟩ = Option.none
    ∧ handle_request natCtx envAll chanS1 ⟨0, .Signal ⟨0, 1, []⟩⟩ =
        some (chanS1, { Effects.none with signals := [⟨0, 1, []⟩] }) :=
  ⟨(c4_amended natCtx envAll chanS0 0 ⟨0, 5, []⟩ ⟨Option.none, Option.none⟩).1 rfl,
   (c4_amended natCtx envAll chanS0 3 ⟨0, 5, []⟩ ⟨Option.none, Option.none⟩).2.1 rfl,
   (c4_amended natCtx envAll chanS1 0 ⟨0, 1, []⟩ ⟨Option.none, Option.none⟩).2.2
     { name := ("a").toList, audio := false } rfl⟩

/-! ## C5 — Init creates the member and replies before broadcasting -/

/-- The member record created by the `Init` branch: the supplied name or
the default bear name, audio off. -/
def initUserData (id : Nat) (name : Option Str) : UserData :=
  { name := match name with
      | some n => n
      | none => ("Bear #").toList ++ Nat.toDigits 10 id
    audio := false }

/-- Inserting a binding makes it a member of the resulting list. -/
theorem mem_mapInsert_self {K V : Type} [DecidableEq K] (k : K) (v : V) :
    ∀ m : List (K × V), (k, v) ∈ mapInsert k v m := by
  intro m
  induction m with
  | nil => simp [mapInsert]
  | cons hd tl ih =>
    obtain ⟨k1, v1⟩ := hd
    by_cases hk : k1 = k <;> simp [mapInsert, hk, ih]

/-- C5: handling `Init` inserts a member record with the supplied name (or
the default bear name) and audio off; the reply — delivered exactly when
the one-shot send succeeds — carries the serialized document state and the
serialized public roster, which includes the new member itself; and the
`NewUser` broadcast is published if and only if the one-shot reply
succeeded. -/
theorem c5_init {Doc Step : Type} (ctx : ChannelCtx Doc Step) (env : Env)
    (s : ChannelState Doc) (id : Nat) (name : Option Str)
    (hsub : env.hasSubscribers = true) :
    handle_request ctx env s (⟨id, .Init name⟩ : Request Step) =
      some ({ s with member_data := mapInsert id (initUserData id name) s.member_data },
            { broadcasts :=
                if env.initReplyOk then
                  [.NewUser id (ctx.serializePub (initUserData id name).public)]
                else []
              signals := []
              initReply :=
                if env.initReplyOk then
                  some { doc := ctx.serializeDoc s.doc_state
                         j_peers := ctx.serializePeers
                           ((mapInsert id (initUserData id name) s.member_data).map
                             (fun p => (p.1, p.2.public))) }
                else Option.none
              ends := [] })
    ∧ (initUserData id name).audio = false
    ∧ (id, (initUserData id name).public) ∈
        (mapInsert id (initUserData id name) s.member_data).map
          (fun p => (p.1, p.2.public)) := by
  refine ⟨?_, rfl, ?_⟩
  · by_cases hr : env.initReplyOk <;>
      simp [handle_request, hsub, hr, initUserData, Effects.none]
  · exact List.mem_map_of_mem _ (mem_mapInsert_self id (initUserData id name) s.member_data)

/-- Witness for C5 at a concrete state: user 0 with no supplied name gets
the default bear name, the reply is delivered and the broadcast follows. -/
theorem c5_witness :
    envAll.hasSubscribers = true
    ∧ handle_request natCtx envAll chanS0 ⟨0, .Init Option.none⟩ =
        some ({ chanS0 with
                member_data := mapInsert 0 (initUserData 0 Option.none) chanS0.member_data },
              { broadcasts := [.NewUser 0 (natCtx.serializePub (initUserData 0 Option.none).public)]
                signals := []
                initReply := some { doc := natCtx.serializeDoc chanS0.doc_state
                                    j_peers := natCtx.serializePeers
                                      ((mapInsert 0 (initUserData 0 Option.none)
                                          chanS0.member_data).map
                                        (fun p => (p.1, p.2.public))) }
                ends := [] }) :=
  ⟨rfl, by simpa using (c5_init natCtx envAll chanS0 0 Option.none rfl).1⟩

/-! ## C3 — the lobby reference count tracks joins minus ends -/

/-- The lobby invariant for a single-path run: with `n` attached clients
the registry holds exactly one entry for the path, whose count is `n` and
whose stored path is the path; with none it is empty. -/
def lobbyInv (p : Str) (st : LobbyState) (n : Nat) : Prop :=
  if n = 0 then
    st.channels = [] ∧ st.channel_names = []
  else
    ∃ cid entry, st.channels = [(cid, entry)]
      ∧ st.channel_names = [(p, cid)]
      ∧ entry.count = n ∧ entry.path = p

/-- The invariant determines the reference count the lobby reports. -/
theorem lobbyInv_refcount (p : Str) (st : LobbyState) (n : Nat)
    (h : lobbyInv p st n) : refcountOf st p = n := by
  by_cases hn : n = 0
  · subst hn
    simp [lobbyInv] at h
    obtain ⟨h1, h2⟩ := h
    simp [refcountOf, h1, h2, mapFind]
  · simp [lobbyInv, hn] at h
    obtain ⟨cid, entry, h1, h2, h3, -⟩ := h
    simp [refcountOf, h1, h2, mapFind, h3]

/-- Counting joins after a join event. -/
theorem joinCount_cons_join (tl : List LobbyEvt) :
    joinCount (.join :: tl) = joinCount tl + 1 := by
  simp [joinCount, List.filter_cons]

/-- Counting joins after an end event. -/
theorem joinCount_cons_end (tl : List LobbyEvt) :
    joinCount (.endEvt :: tl) = joinCount tl := by
  simp [joinCount, List.filter_cons]

/-- Counting ends after a join event. -/
theorem endCount_cons_join (tl : List LobbyEvt) :
    endCount (.join :: tl) = endCount tl := by
  simp [endCount, List.filter_cons]

/-- Counting ends after an end event. -/
theorem endCount_cons_end (tl : List LobbyEvt) :
    endCount (.endEvt :: tl) = endCount tl + 1 := by
  simp [endCount, List.filter_cons]

/-- A join for a valid file path preserves the invariant, incrementing the
count. -/
theorem lobbyStep_join (p : Str) (st : LobbyState) (n : Nat)
    (hp : ∃ comps file, lobbyCheckName p = .File comps file)
    (h : lobbyInv p st n) :
    ∃ st1, lobbyStep p st .join = some (st1, []) ∧ lobbyInv p st1 (n + 1) := by
  obtain ⟨comps, file, hp⟩ := hp
  by_cases hn : n = 0
  · subst hn
    simp [lobbyInv] at h
    obtain ⟨h1, h2⟩ := h
    refine ⟨⟨st.next_id + 1, mapInsert st.next_id ⟨1, 1, p⟩ st.channels, mapInsert p st.next_id st.channel_names⟩, ?_, ?_⟩
    · simp [lobbyStep, LobbyState.handle_join_request, h2, mapFind, hp]
    · refine ⟨st.next_id, ⟨1, 1, p⟩, ?_⟩
      simp [h1, h2, mapInsert]
  · simp [lobbyInv, hn] at h
    obtain ⟨cid, entry, h1, h2, h3, h4⟩ := h
    refine ⟨{ st with channels := mapInsert cid ⟨entry.next_id + 1, entry.count + 1, entry.path⟩ st.channels }, ?_, ?_⟩
    · simp [lobbyStep, LobbyState.handle_join_request, h1, h2, mapFind]
    · refine ⟨cid, ⟨entry.next_id + 1, entry.count + 1, entry.path⟩, ?_⟩
      simp [h1, h2, mapInsert, h3, h4]

/-- An end notification with `n + 1` clients attached preserves the
invariant, decrementing the count; with exactly one client it removes the
entry and fires the termination of the registered channel. -/
theorem lobbyStep_end (p : Str) (st : LobbyState) (n : Nat)
    (h : lobbyInv p st (n + 1)) :
    ∃ st1 fired, lobbyStep p st .endEvt = some (st1, fired) ∧ lobbyInv p st1 n := by
  simp [lobbyInv] at h
  obtain ⟨cid, entry, h1, h2, h3, h4⟩ := h
  by_cases hn : n = 0
  · subst hn
    refine ⟨{ st with channels := mapRemove cid st.channels, channel_names := mapRemove entry.path st.channel_names }, [cid], ?_, ?_⟩
    · simp [lobbyStep, LobbyState.handle_end, h1, h2, h3, mapFind]
    · simp [lobbyInv, mapRemove, h1, h2, h4]
  · refine ⟨{ st with channels := mapInsert cid ⟨entry.next_id, entry.count - 1, entry.path⟩ st.channels }, [], ?_, ?_⟩
    · have hlt : ¬ entry.count < 1 := by omega
      have hne : ¬ entry.count = 1 := by omega
      simp [lobbyStep, LobbyState.handle_end, h1, h2, mapFind, hlt, hne]
    · simp [lobbyInv, hn]
      refine ⟨cid, ⟨entry.next_id, entry.count - 1, entry.path⟩, ?_⟩
      simp [h1, h2, mapInsert, h3, h4]

/-- Along any successful single-path lobby run the invariant is preserved,
with the count equal to the starting count plus joins minus ends. -/
theorem lobbyRun_inv (p : Str)
    (hp : ∃ comps file, lobbyCheckName p = .File comps file) :
    ∀ (es : List LobbyEvt) (st : LobbyState) (n : Nat) (st1 : LobbyState)
      (fired : List Nat),
      lobbyInv p st n → lobbyRun p st es = some (st1, fired) →
      endCount es ≤ n + joinCount es
      ∧ lobbyInv p st1 (n + joinCount es - endCount es) := by
  intro es
  induction es with
  | nil =>
    intro st n st1 fired hInv h
    simp [lobbyRun] at h
    obtain ⟨rfl, rfl⟩ := h
    simpa [joinCount, endCount] using hInv
  | cons e tl ih =>
    intro st n st1 fired hInv h
    cases e with
    | join =>
      obtain ⟨stM, hstep, hInv1⟩ := lobbyStep_join p st n hp hInv
      rw [lobbyRun, hstep] at h
      simp only [Option.some_bind] at h
      cases htl : lobbyRun p stM tl with
      | none => rw [htl] at h; simp at h
      | some pair =>
        obtain ⟨st2, fired2⟩ := pair
        rw [htl] at h
        simp at h
        obtain ⟨rfl, -⟩ := h
        have hih := ih stM (n + 1) st2 fired2 hInv1 htl
        obtain ⟨hle, hinv2⟩ := hih
        rw [joinCount_cons_join, endCount_cons_join]
        constructor
        · omega
        · have harith : n + (joinCount tl + 1) - endCount tl
              = n + 1 + joinCount tl - endCount tl := by omega
          rw [harith]
          exact hinv2
    | endEvt =>
      cases hn : n with
      | zero =>
        subst hn
        simp [lobbyInv] at hInv
        obtain ⟨h1, h2⟩ := hInv
        simp [lobbyRun, lobbyStep, h2, mapFind] at h
      | succ m =>
        subst hn
        obtain ⟨stM, firedM, hstep, hInv1⟩ := lobbyStep_end p st m hInv
        rw [lobbyRun, hstep] at h
        simp only [Option.some_bind] at h
        cases htl : lobbyRun p stM tl with
        | none => rw [htl] at h; simp at h
        | some pair =>
          obtain ⟨st2, fired2⟩ := pair
          rw [htl] at h
          simp at h
          obtain ⟨rfl, -⟩ := h
          have hih := ih stM m st2 fired2 hInv1 htl
          obtain ⟨hle, hinv2⟩ := hih
          rw [joinCount_cons_end, endCount_cons_end]
          constructor
          · omega
          · have harith : m + 1 + joinCount tl - (endCount tl + 1)
                = m + joinCount tl - endCount tl := by omega
            rw [harith]
            exact hinv2

/-- C3: for every interleaved single-path sequence of successful joins and
end notifications processed by the lobby, the reference count of the
channel entry equals joins minus ends (0 when the entry has been removed);
moreover an end notification at count 1 removes the entry, removes the
path mapping and fires the termination one-shot, while at a count above 1
it only decrements and the entry remains. -/
theorem c3_refcount (p : Str) (es : List LobbyEvt) (st1 : LobbyState)
    (fired : List Nat)
    (hp : ∃ comps file, lobbyCheckName p = .File comps file)
    (h : lobbyRun p LobbyState.default es = some (st1, fired)) :
    (refcountOf st1 p = joinCount es - endCount es ∧ endCount es ≤ joinCount es)
    ∧ (∀ (st : LobbyState) (cid : Nat) (entry : LobbyChannel),
        mapFind cid st.channels = some entry →
        (entry.count = 1 →
          st.handle_end cid = ({ st with channels := mapRemove cid st.channels, channel_names := mapRemove entry.path st.channel_names }, .Continue, [cid]))
        ∧ (1 < entry.count →
          st.handle_end cid = ({ st with channels := mapInsert cid ⟨entry.next_id, entry.count - 1, entry.path⟩ st.channels }, .Continue, []))) := by
  constructor
  · have hInv0 : lobbyInv p LobbyState.default 0 := by
      simp [lobbyInv, LobbyState.default]
    have hrun := lobbyRun_inv p hp es LobbyState.default 0 st1 fired hInv0 h
    obtain ⟨hle, hinv⟩ := hrun
    have := lobbyInv_refcount p st1 (0 + joinCount es - endCount es) hinv
    constructor
    · simpa using this
    · simpa using hle
  · intro st cid entry hm
    constructor
    · intro h1
      have hlt : ¬ entry.count < 1 := by omega
      simp [LobbyState.handle_end, hm, h1, hlt]
    · intro h2
      have hlt : ¬ entry.count < 1 := by omega
      have hne : ¬ entry.count = 1 := by omega
      simp [LobbyState.handle_end, hm, hlt, hne]

/-- Witness for C3: the run join, join, end on a concrete valid path ends
with reference count 1 = 2 − 1. -/
theorem c3_witness :
    lobbyCheckName ("/pad").toList = .File [] ("pad").toList
    ∧ lobbyRun ("/pad").toList LobbyState.default [.join, .join, .endEvt] =
        some (⟨1, [(0, ⟨2, 1, ("/pad").toList⟩)], [(("/pad").toList, 0)]⟩, [])
    ∧ refcountOf ⟨1, [(0, ⟨2, 1, ("/pad").toList⟩)], [(("/pad").toList, 0)]⟩ ("/pad").toList
        = joinCount [.join, .join, .endEvt] - endCount [.join, .join, .endEvt] :=
  ⟨by decide, by decide,
   (c3_refcount ("/pad").toList [.join, .join, .endEvt]
      ⟨1, [(0, ⟨2, 1, ("/pad").toList⟩)], [(("/pad").toList, 0)]⟩ []
      ⟨[], ("pad").toList, by decide⟩ (by decide)).1.1⟩

/-! ## C7 — classification of the folder resolver -/

/-- `splitOnChar` never returns the empty list. -/
theorem splitOnChar_ne_nil (c : Char) : ∀ s : List Char, splitOnChar c s ≠ [] := by
  intro s
  induction s with
  | nil => simp [splitOnChar]
  | cons x xs ih =>
    by_cases hx : x = c
    · simp [splitOnChar, hx]
    · simp only [splitOnChar, if_neg hx]
      cases hs : splitOnChar c xs with
      | nil => exact absurd hs ih
      | cons s1 ss => simp

/-- `popLast` of a non-empty list always succeeds. -/
theorem popLast_cons_some {A : Type} (a : A) :
    ∀ l : List A, ∃ fl : List A × A, popLast (a :: l) = some fl := by
  intro l
  induction l generalizing a with
  | nil => exact ⟨([], a), rfl⟩
  | cons b rest ih =>
    obtain ⟨⟨front, last⟩, hfl⟩ := ih b
    exact ⟨(a :: front, last), by simp [popLast, hfl]⟩

/-- The kind computed by the source walk equals the spec's walk over the
non-final segments followed by the final-segment classification. -/
theorem check_name_iter_kind :
    ∀ (iter : List Str) (f : Folder) (curr : Str) (base : FsPath),
      (f.check_name_iter iter curr base).kind =
        (match popLast (curr :: iter) with
         | some (components, final) =>
           (match walkSpec f components with
            | some _ => if final = [] then PathKind.folderKind else PathKind.fileKind final
            | none => PathKind.invalid)
         | none => PathKind.invalid) := by
  intro iter
  induction iter with
  | nil =>
    intro f curr base
    by_cases hc : curr = [] <;>
      simp [Folder.check_name_iter, walkSpec, popLast, PathValidity.kind, hc]
  | cons next rest ih =>
    intro f curr base
    obtain ⟨⟨front, last⟩, hfl⟩ := popLast_cons_some next rest
    cases hsub : mapFind curr f.sub with
    | none =>
      simp [Folder.check_name_iter, hsub, popLast, hfl, walkSpec, PathValidity.kind]
    | some sub =>
      have hrec := ih sub next
        ((match f.save_dir with | some base1 => base1 | none => base) ++ [curr])
      simp only [Folder.check_name_iter, hsub]
      rw [hrec]
      simp [popLast, hfl, walkSpec, hsub]

/-- C7: for every input path, the folder resolver classifies exactly as
the spec states — Invalid when the path does not start with a slash or
some non-final segment is unknown, Folder when the walk succeeds and the
final segment is empty, and File with the final segment otherwise. -/
theorem c7_check_name_kind (f : Folder) (path : Str) (base : FsPath) :
    (f.check_name path base).kind = check_name_spec f path := by
  cases path with
  | nil =>
    simp [Folder.check_name, check_name_spec, splitOnChar, startsWithSlash,
          PathValidity.kind]
  | cons c t =>
    by_cases hc : c = '/'
    · subst hc
      have hsw : startsWithSlash ('/' :: t) = true := rfl
      have hsplit : splitOnChar '/' ('/' :: t) = [] :: splitOnChar '/' t := by
        simp [splitOnChar]
      cases hs : splitOnChar '/' t with
      | nil => exact absurd hs (splitOnChar_ne_nil '/' t)
      | cons curr iter =>
        obtain ⟨⟨front, last⟩, hfl⟩ := popLast_cons_some curr iter
        rw [Folder.check_name, hsplit, hs]
        simp only [eq_self_iff_true, if_true]
        rw [check_name_iter_kind iter f curr base]
        rw [check_name_spec, hsw]
        simp only [eq_self_iff_true, if_true]
        rw [hsplit, hs]
        simp [hfl]
    · have hsw : startsWithSlash (c :: t) = false := by
        cases t <;> simp [startsWithSlash, hc]
      rw [check_name_spec, hsw]
      simp only [Bool.false_eq_true, if_neg]
      cases hs : splitOnChar '/' t with
      | nil => exact absurd hs (splitOnChar_ne_nil '/' t)
      | cons s1 ss =>
        have hsplit : splitOnChar '/' (c :: t) = (c :: s1) :: ss := by
          simp [splitOnChar, hc, hs]
        rw [Folder.check_name, hsplit]
        simp [PathValidity.kind]

/-! ## C6 — slug-keyed channel identity -/

/-- Splitting a string without the separator yields the one chunk. -/
theorem splitOnChar_noSep (c : Char) :
    ∀ s : List Char, c ∉ s → splitOnChar c s = [s] := by
  intro s
  induction s with
  | nil => intro h; rfl
  | cons x xs ih =>
    intro h
    have hx : ¬ x = c := fun he => h (he ▸ List.mem_cons_self x xs)
    have hxs : c ∉ xs := fun hm => h (List.mem_cons_of_mem x hm)
    simp only [splitOnChar, if_neg hx, ih hxs]

/-- Splitting at the first separator occurrence detaches the prefix chunk. -/
theorem splitOnChar_withSep (c : Char) :
    ∀ (pre post : List Char), c ∉ pre →
      splitOnChar c (pre ++ c :: post) = pre :: splitOnChar c post := by
  intro pre
  induction pre with
  | nil =>
    intro post h
    simp [splitOnChar]
  | cons x xs ih =>
    intro post h
    have hx : ¬ x = c := fun he => h (he ▸ List.mem_cons_self x xs)
    have hxs : c ∉ xs := fun hm => h (List.mem_cons_of_mem x hm)
    simp only [List.cons_append, splitOnChar, if_neg hx, List.append_eq]
    rw [ih post hxs]

/-- Build the client path of a segment list: a leading slash before each
segment. -/
def joinPath : List Str → Str
  | [] => []
  | seg :: rest => '/' :: (seg ++ joinPath rest)

/-- Splitting a joined path with slash-free segments recovers the leading
empty chunk and the segments. -/
theorem splitOnChar_joinPath_aux :
    ∀ (segs : List Str) (s : Str), '/' ∉ s → (∀ x ∈ segs, '/' ∉ x) →
      splitOnChar '/' (s ++ joinPath segs) = s :: segs := by
  intro segs
  induction segs with
  | nil =>
    intro s hs _
    simpa [joinPath] using splitOnChar_noSep '/' s hs
  | cons seg rest ih =>
    intro s hs hsegs
    have hseg : '/' ∉ seg := hsegs seg (List.mem_cons_self seg rest)
    have hrest : ∀ x ∈ rest, '/' ∉ x := fun x hx => hsegs x (List.mem_cons_of_mem seg hx)
    calc splitOnChar '/' (s ++ joinPath (seg :: rest))
        = splitOnChar '/' (s ++ '/' :: (seg ++ joinPath rest)) := by rw [joinPath]
      _ = s :: splitOnChar '/' (seg ++ joinPath rest) := splitOnChar_withSep '/' s _ hs
      _ = s :: seg :: rest := by rw [ih seg hseg hrest]

/-- Splitting a joined path on slashes gives the empty head then the
segments. -/
theorem splitOnChar_joinPath (segs : List Str) (hsegs : ∀ x ∈ segs, '/' ∉ x) :
    splitOnChar '/' (joinPath segs) = [] :: segs := by
  simpa using splitOnChar_joinPath_aux segs [] (by simp) hsegs

/-- Feed a non-empty segment list to the source walk the way `check_name`
does: the head is the current segment, the tail the iterator. -/
def runIterSegs (f : Folder) (segs : List Str) (base : FsPath) : PathValidity :=
  match segs with
  | [] => .Invalid
  | curr :: iter => f.check_name_iter iter curr base

/-- Resolving a joined slash-free path runs the walk on its segments. -/
theorem check_name_joinPath (f : Folder) (base : FsPath) (segs : List Str)
    (hsegs : ∀ x ∈ segs, '/' ∉ x) (hne : segs ≠ []) :
    f.check_name (joinPath segs) base = runIterSegs f segs base := by
  rw [Folder.check_name, splitOnChar_joinPath segs hsegs]
  cases segs with
  | nil => exact absurd rfl hne
  | cons curr iter => simp [runIterSegs]

/-- The walk treats the final segment opaquely: two paths through the same
components either both fail, or both resolve to files in the same folder
and directory, carrying their own final segment. -/
theorem runIterSegs_last :
    ∀ (comps : List Str) (f : Folder) (base : FsPath) (n1 n2 : Str),
      n1 ≠ [] → n2 ≠ [] →
      (runIterSegs f (comps ++ [n1]) base = .Invalid
        ∧ runIterSegs f (comps ++ [n2]) base = .Invalid)
      ∨ (∃ g d, runIterSegs f (comps ++ [n1]) base = .File g d n1
        ∧ runIterSegs f (comps ++ [n2]) base = .File g d n2) := by
  intro comps
  induction comps with
  | nil =>
    intro f base n1 n2 h1 h2
    right
    refine ⟨f, (match f.save_dir with | some b => b | none => base), ?_, ?_⟩
    · simp [runIterSegs, Folder.check_name_iter, h1]
    · simp [runIterSegs, Folder.check_name_iter, h2]
  | cons c cs ih =>
    intro f base n1 n2 h1 h2
    cases hsub : mapFind c f.sub with
    | none =>
      left
      cases cs with
      | nil => constructor <;> simp [runIterSegs, Folder.check_name_iter, hsub]
      | cons c2 cs2 => constructor <;> simp [runIterSegs, Folder.check_name_iter, hsub]
    | some sub =>
      have hrec := ih sub
        ((match f.save_dir with | some b => b | none => base) ++ [c]) n1 n2 h1 h2
      cases cs with
      | nil =>
        rcases hrec with ⟨ha, hb⟩ | ⟨g, d, ha, hb⟩
        · left
          refine ⟨?_, ?_⟩
          · simpa [runIterSegs, Folder.check_name_iter, hsub] using ha
          · simpa [runIterSegs, Folder.check_name_iter, hsub] using hb
        · right
          refine ⟨g, d, ?_, ?_⟩
          · simpa [runIterSegs, Folder.check_name_iter, hsub] using ha
          · simpa [runIterSegs, Folder.check_name_iter, hsub] using hb
      | cons c2 cs2 =>
        rcases hrec with ⟨ha, hb⟩ | ⟨g, d, ha, hb⟩
        · left
          refine ⟨?_, ?_⟩
          · simpa [runIterSegs, Folder.check_name_iter, hsub] using ha
          · simpa [runIterSegs, Folder.check_name_iter, hsub] using hb
        · right
          refine ⟨g, d, ?_, ?_⟩
          · simpa [runIterSegs, Folder.check_name_iter, hsub] using ha
          · simpa [runIterSegs, Folder.check_name_iter, hsub] using hb

/-- C6: the channel key of a path resolving to a file is the effective
save_dir accumulated during the folder walk joined with the slugified
final segment plus the md extension; hence two client paths with the same
non-final components whose final segments slugify to the same file name
are mapped to the same channel key. -/
theorem c6_channel_key (f : Folder) (base : FsPath) (comps : List Str)
    (n1 n2 : Str)
    (hc : ∀ x ∈ comps, '/' ∉ x) (h1 : '/' ∉ n1) (h2 : '/' ∉ n2)
    (hn1 : n1 ≠ []) (hn2 : n2 ≠ [])
    (hslug : slugify n1 = slugify n2) :
    channelKey f (joinPath (comps ++ [n1])) base
      = channelKey f (joinPath (comps ++ [n2])) base
    ∧ (∀ (g : Folder) (d : FsPath) (m : Str),
        f.check_name (joinPath (comps ++ [n1])) base = .File g d m →
        channelKey f (joinPath (comps ++ [n1])) base
          = some (d ++ [slugify m ++ (".md").toList])) := by
  have hseg1 : ∀ x ∈ comps ++ [n1], '/' ∉ x := by
    intro x hx
    rcases List.mem_append.mp hx with hx | hx
    · exact hc x hx
    · simp at hx
      subst hx
      exact h1
  have hseg2 : ∀ x ∈ comps ++ [n2], '/' ∉ x := by
    intro x hx
    rcases List.mem_append.mp hx with hx | hx
    · exact hc x hx
    · simp at hx
      subst hx
      exact h2
  have e1 := check_name_joinPath f base (comps ++ [n1]) hseg1 (by simp)
  have e2 := check_name_joinPath f base (comps ++ [n2]) hseg2 (by simp)
  rcases runIterSegs_last comps f base n1 n2 hn1 hn2 with ⟨ha, hb⟩ | ⟨g, d, ha, hb⟩
  · constructor
    · rw [channelKey, channelKey, e1, e2, ha, hb]
    · intro g2 d2 m hFile
      rw [e1, ha] at hFile
      exact absurd hFile (by simp)
  · constructor
    · rw [channelKey, channelKey, e1, e2, ha, hb]
      show some (d ++ [slugify n1 ++ (".md").toList])
        = some (d ++ [slugify n2 ++ (".md").toList])
      rw [hslug]
    · intro g2 d2 m hFile
      rw [e1, ha] at hFile
      injection hFile with hg hd hm
      subst hd
      subst hm
      rw [channelKey, e1, ha]

/-- A concrete folder tree: the root has one subfolder `room` whose
save_dir is `save`. -/
def demoFolder : Folder :=
  .node Option.none [] [(("room").toList, .node (some [("save").toList]) [] [])]

/-- Witness for C6: the concrete paths room/My Pad and room/my-pad share
the channel key save/my-pad.md. -/
theorem c6_witness :
    slugify ("My Pad").toList = slugify ("my-pad").toList
    ∧ channelKey demoFolder (joinPath [("room").toList, ("My Pad").toList]) []
        = channelKey demoFolder (joinPath [("room").toList, ("my-pad").toList]) []
    ∧ channelKey demoFolder (joinPath [("room").toList, ("My Pad").toList]) []
        = some [("save").toList, ("my-pad.md").toList] :=
  ⟨by rfl,
   (c6_channel_key demoFolder [] [("room").toList] ("My Pad").toList ("my-pad").toList
      (by decide) (by decide) (by decide) (by decide) (by decide) (by rfl)).1,
   (c6_channel_key demoFolder [] [("room").toList] ("My Pad").toList ("my-pad").toList
      (by decide) (by decide) (by decide) (by decide) (by decide) (by rfl)).2
     (.node (some [("save").toList]) [] []) [("save").toList] ("My Pad").toList (by rfl)⟩

/-! ## C8 — the pipe split rule -/

/-- Splitting a string without a pipe returns it whole with no argument. -/
theorem split_arg_no_pipe : ∀ s : Str, '|' ∉ s → split_arg s = (s, none) := by
  intro s
  induction s with
  | nil => intro h; rfl
  | cons x xs ih =>
    intro h
    have hx : ¬ x = '|' := fun he => h (he ▸ List.mem_cons_self x xs)
    have hxs : '|' ∉ xs := fun hm => h (List.mem_cons_of_mem x hm)
    simp [split_arg, if_neg hx, ih hxs]

/-- Splitting detaches the pipe-free head before the first pipe and keeps
the entire remainder. -/
theorem split_arg_pipe : ∀ pre rest : Str, '|' ∉ pre →
    split_arg (pre ++ '|' :: rest) = (pre, some rest) := by
  intro pre
  induction pre with
  | nil => intro rest h; simp [split_arg]
  | cons x xs ih =>
    intro rest h
    have hx : ¬ x = '|' := fun he => h (he ▸ List.mem_cons_self x xs)
    have hxs : '|' ∉ xs := fun hm => h (List.mem_cons_of_mem x hm)
    simp only [List.cons_append, split_arg, if_neg hx, List.append_eq]
    rw [ih rest hxs]

/-- C8: a frame is split once on its first pipe to find the verb; the chat
argument is passed through verbatim even when it contains pipes; for steps
and webrtc the argument is split once more, the first field being the text
before that pipe and the payload the entire remainder. -/
theorem c8_split_rule :
    (∀ t : Str, Command.fromStr (("chat|").toList ++ t) = .ok (.Chat t))
    ∧ (∀ (v payload : Str) (n : Nat), '|' ∉ v → parseUnsigned v u64Max = some n →
        Command.fromStr (("steps|").toList ++ v ++ '|' :: payload)
          = .ok (.Steps n payload))
    ∧ (∀ (r payload : Str) (n : Nat), '|' ∉ r → parseUnsigned r u64Max = some n →
        Command.fromStr (("webrtc|").toList ++ r ++ '|' :: payload)
          = .ok (.WebRTC n payload))
    ∧ (∀ pre rest : Str, '|' ∉ pre → split_arg (pre ++ '|' :: rest) = (pre, some rest))
    ∧ (∀ s : Str, '|' ∉ s → split_arg s = (s, none)) := by
  refine ⟨?_, ?_, ?_, split_arg_pipe, split_arg_no_pipe⟩
  · intro t
    have hsplit : split_arg (("chat").toList ++ '|' :: t) = (("chat").toList, some t) :=
      split_arg_pipe ("chat").toList t (by decide)
    have heq : (("chat|").toList ++ t) = ("chat").toList ++ '|' :: t := rfl
    rw [heq, Command.fromStr, hsplit]
    rfl
  · intro v payload n hv hn
    have hsplit : split_arg (("steps").toList ++ '|' :: (v ++ '|' :: payload))
        = (("steps").toList, some (v ++ '|' :: payload)) :=
      split_arg_pipe ("steps").toList _ (by decide)
    have heq : (("steps|").toList ++ v ++ '|' :: payload)
        = ("steps").toList ++ '|' :: (v ++ '|' :: payload) := rfl
    rw [heq, Command.fromStr, hsplit]
    show (match split_arg (v ++ '|' :: payload) with
          | (version_str, opt_steps) =>
            match opt_steps with
            | none => Except.error (ParseCommandError.MissingArg CommandKind.Steps)
            | some steps =>
              match parseUnsigned version_str u64Max with
              | some version => Except.ok (Command.Steps version steps)
              | none => Except.error (ParseCommandError.MissingArg CommandKind.Steps))
        = .ok (.Steps n payload)
    rw [split_arg_pipe v payload hv]
    simp [hn]
  · intro r payload n hr hn
    have hsplit : split_arg (("webrtc").toList ++ '|' :: (r ++ '|' :: payload))
        = (("webrtc").toList, some (r ++ '|' :: payload)) :=
      split_arg_pipe ("webrtc").toList _ (by decide)
    have heq : (("webrtc|").toList ++ r ++ '|' :: payload)
        = ("webrtc").toList ++ '|' :: (r ++ '|' :: payload) := rfl
    rw [heq, Command.fromStr, hsplit]
    show (match split_arg (r ++ '|' :: payload) with
          | (reciever_str, opt_payload) =>
            match opt_payload with
            | none => Except.error (ParseCommandError.MissingArg CommandKind.WebRTC)
            | some payload1 =>
              match parseUnsigned reciever_str u64Max with
              | some reciever => Except.ok (Command.WebRTC reciever payload1)
              | none => Except.error (ParseCommandError.MissingArg CommandKind.WebRTC))
        = .ok (.WebRTC n payload)
    rw [split_arg_pipe r payload hr]
    simp [hn]

/-- Witness for C8 on concrete frames whose payloads contain pipes. -/
theorem c8_witness :
    Command.fromStr ("chat|a|b").toList = .ok (.Chat ("a|b").toList)
    ∧ Command.fromStr ("steps|12|[x|y]").toList = .ok (.Steps 12 ("[x|y]").toList)
    ∧ Command.fromStr ("webrtc|3|sdp|x").toList = .ok (.WebRTC 3 ("sdp|x").toList) :=
  ⟨c8_split_rule.1 ("a|b").toList,
   c8_split_rule.2.1 ("12").toList ("[x|y]").toList 12 (by decide) (by decide),
   c8_split_rule.2.2.1 ("3").toList ("sdp|x").toList 3 (by decide) (by decide)⟩

/-! ## C9 — parse errors answer with an error frame and continue -/

/-- A concrete client context for evaluating the session handlers. -/
def natClientCtx : ClientCtx Nat :=
  { parseUserConfig := fun _ => .ok { name := Option.none, audio := Option.none }
    parseJson := fun s => .ok s
    parseSteps := fun _ => .ok [] }

/-- A client environment in which every send succeeds and the init reply
arrives. -/
def clientEnvAll : ClientEnv :=
  { wsSendOk := true, msgSendOk := true,
    initReplyRecv := some { doc := [], j_peers := [] } }

/-- C9: an inbound text frame that fails to parse is answered with a
single error frame carrying the rendered message, no request is sent to
the channel, and the session loop continues. -/
theorem c9_parse_error (Step : Type) (ctx : ClientCtx Step) (env : ClientEnv)
    (id : Nat) (t : Str) (err : ParseCommandError)
    (hparse : Command.fromStr t = .error err) (hws : env.wsSendOk = true) :
    handle_message ctx env id (.text t)
      = .ok (.Continue, [("error|").toList ++ err.display], []) := by
  simp [handle_message, hparse, handle_command, hws]

/-- Witness for C9: the unknown verb close is answered with the rendered
unknown-command error and no channel request. -/
theorem c9_witness :
    Command.fromStr ("close").toList
      = .error (.UnknownCommand ("close").toList)
    ∧ handle_message natClientCtx clientEnvAll 0 (.text ("close").toList)
      = .ok (.Continue, [("error|The command `close` is not known").toList], []) :=
  ⟨rfl, c9_parse_error Nat natClientCtx clientEnvAll 0 ("close").toList
     (.UnknownCommand ("close").toList) rfl rfl⟩

/-! ## C10 — accepted verbs, and Close never comes from parsing -/

/-- The parser never produces the Close command. -/
theorem fromStr_ne_close : ∀ (input : Str) (c : Command),
    Command.fromStr input = .ok c → c ≠ .Close := by
  intro input c h hc
  subst hc
  unfold Command.fromStr at h
  repeat' split at h
  all_goals try simp_all

/-- `handle_command` only delivers a Close request when its input is the
parsed Close command. -/
theorem handle_command_close {Step : Type} (ctx : ClientCtx Step)
    (env : ClientEnv) (id : Nat)
    (cmd_res : Except ParseCommandError Command) (out : ClientOut Step)
    (h : handle_command ctx env id cmd_res = .ok out)
    (hmem : RequestKind.Close ∈ out.2.2) : cmd_res = .ok .Close := by
  rcases cmd_res with err | c
  · unfold handle_command at h
    repeat' split at h
    all_goals try simp_all
    all_goals (subst h; simp at hmem)
  · cases c with
    | Init name =>
      unfold handle_command at h
      repeat' split at h
      all_goals try simp_all
      all_goals (subst h; simp at hmem)
    | Chat msg =>
      unfold handle_command at h
      repeat' split at h
      all_goals try simp_all
      all_goals (subst h; simp at hmem)
    | Update payload =>
      unfold handle_command at h
      repeat' split at h
      all_goals try simp_all
      all_goals (subst h; simp at hmem)
    | WebRTC reciever payload =>
      unfold handle_command at h
      repeat' split at h
      all_goals try simp_all
      all_goals (subst h; simp at hmem)
    | Steps version string =>
      unfold handle_command at h
      repeat' split at h
      all_goals try simp_all
      all_goals (subst h; simp at hmem)
    | Close => rfl

/-- C10: the parser accepts exactly the five verbs init, chat, steps,
update and webrtc — the literal close included among the rejected ones —
so handling a text frame never delivers a Close request; Close is
delivered for a WebSocket close frame, and for a ping whose pong send
failed. -/
theorem c10_close_only_from_session :
    (∀ s : Str, (∃ k, CommandKind.fromStr s = .ok k) ↔
      (s = ("init").toList ∨ s = ("chat").toList ∨ s = ("steps").toList
        ∨ s = ("update").toList ∨ s = ("webrtc").toList))
    ∧ CommandKind.fromStr ("close").toList
        = .error (.UnknownCommand ("close").toList)
    ∧ (∀ (input : Str) (c : Command), Command.fromStr input = .ok c → c ≠ .Close)
    ∧ (∀ (Step : Type) (ctx : ClientCtx Step) (env : ClientEnv) (id : Nat)
        (t : Str) (out : ClientOut Step),
        handle_message ctx env id (.text t) = .ok out →
        RequestKind.Close ∉ out.2.2)
    ∧ (∀ (Step : Type) (ctx : ClientCtx Step) (env : ClientEnv) (id : Nat),
        env.msgSendOk = true →
        handle_message ctx env id .close
          = .ok (CommandRes.Break, ([] : List Str), [RequestKind.Close])
        ∧ (env.wsSendOk = false → ∀ p, handle_message ctx env id (.ping p)
          = .ok (CommandRes.Break, ([] : List Str), [RequestKind.Close]))) := by
  refine ⟨?_, rfl, fromStr_ne_close, ?_, ?_⟩
  · intro s
    constructor
    · rintro ⟨k, hk⟩
      by_cases h1 : s = ("init").toList
      · exact Or.inl h1
      by_cases h2 : s = ("chat").toList
      · exact Or.inr (Or.inl h2)
      by_cases h3 : s = ("steps").toList
      · exact Or.inr (Or.inr (Or.inl h3))
      by_cases h4 : s = ("update").toList
      · exact Or.inr (Or.inr (Or.inr (Or.inl h4)))
      by_cases h5 : s = ("webrtc").toList
      · exact Or.inr (Or.inr (Or.inr (Or.inr h5)))
      unfold CommandKind.fromStr at hk
      rw [if_neg h1, if_neg h2, if_neg h3, if_neg h4, if_neg h5] at hk
      exact absurd hk (by simp)
    · rintro (rfl | rfl | rfl | rfl | rfl)
      · exact ⟨.Init, rfl⟩
      · exact ⟨.Chat, rfl⟩
      · exact ⟨.Steps, rfl⟩
      · exact ⟨.Update, rfl⟩
      · exact ⟨.WebRTC, rfl⟩
  · intro Step ctx env id t out h hmem
    have hclose := handle_command_close ctx env id (Command.fromStr t) out h hmem
    exact fromStr_ne_close t .Close hclose rfl
  · intro Step ctx env id hmsg
    constructor
    · simp [handle_message, hmsg]
    · intro hws p
      simp [handle_message, hmsg, hws]

/-- Witness for C10 at concrete inputs: steps is an accepted verb, close
is rejected, a parsed chat frame delivers no Close request, and a close
frame delivers exactly one. -/
theorem c10_witness :
    (∃ k, CommandKind.fromStr ("steps").toList = .ok k)
    ∧ RequestKind.Close ∉
        ((CommandRes.Continue, ([] : List Str),
          ([RequestKind.Chat ("hi").toList] : List (RequestKind Nat))) : ClientOut Nat).2.2
    ∧ handle_message natClientCtx clientEnvAll 0 .close
        = .ok (CommandRes.Break, ([] : List Str), [RequestKind.Close]) :=
  ⟨(c10_close_only_from_session.1 ("steps").toList).mpr
     (Or.inr (Or.inr (Or.inl rfl))),
   c10_close_only_from_session.2.2.2.1 Nat natClientCtx clientEnvAll 0
     ("chat|hi").toList _ rfl,
   (c10_close_only_from_session.2.2.2.2 Nat natClientCtx clientEnvAll 0 rfl).1⟩

end Padington
